import Mathlib

/-!
Verification of the tiered memory coordinator (`MemoryManager`) of the
microgpt-agent-sdk repository.

The embedding models the class state (`inMemoryCache`, the Redis backend, the
Supabase tables) as explicit functional state, and each public operation
(`remember`, `recall`, `learn`, `forget`, `getStats`) as a state-passing
function translated line by line from the TypeScript source.

Modelling conventions:
- JavaScript strings are `List Char` (named `Str`), so that the source's
  `startsWith` and `includes` (substring) key tests are modelled exactly.
- JavaScript numbers are `ℚ`; `Date` values are `Nat` (milliseconds).
- `Map<string, any>` is an insertion-ordered association list; `Map.set`
  updates in place when the key exists and appends otherwise.
- TTL expiry (Redis `setex`/`expire`, the degraded-mode `setTimeout`) is not
  modelled: all claims concern call sequences during which no time passes and
  no timer fires.
- Values read back from Redis go through `JSON.stringify`/`JSON.parse`; the
  parsed object is identical except that `timestamp` is an ISO string rather
  than a `Date`.  This is tracked by the distinct constructor `CVal.memP`:
  its `timestamp` is not a `Date`, so `.getTime()` on it throws and `<`
  comparisons against a `Date` are `false` (NaN semantics).
- `recall` can throw (a `TypeError` inside the JS sort comparator when an
  element has no `Date` timestamp), so it returns `Except`.  A comparison
  sort invokes its comparator on every element whenever the list has at
  least two elements, which is when the throw occurs.
-/

abbrev Str := List Char

/-- `Memory['type']` from src/types: 'transaction' | 'pattern' | 'decision' | 'outcome'. -/
inductive MType where
  | transaction
  | pattern
  | decision
  | outcome
deriving DecidableEq

/-- Opaque `content` payload; `learn` builds the `{transactionId, success, pattern}` object. -/
inductive Content where
  | raw (s : Str)
  | learnPayload (transactionId : Str) (success : Bool) (patternSig : Option Str)
deriving DecidableEq

/-- The `Memory` interface from src/types. `confidence`, `embedding`, `metadata` are optional. -/
structure Memory where
  id : Str
  agentId : Str
  timestamp : Nat
  type : MType
  content : Content
  confidence : Option ℚ
  embedding : Option (List ℚ)
  metadata : Option Str
deriving DecidableEq

/-- The object `storeSemanticMemory` puts in the cache:
`{embedding, metadata: {id, type, confidence}}`. It has no top-level
`id`/`type`/`timestamp`/`confidence` properties. -/
structure SemRecord where
  embedding : List ℚ
  metaId : Str
  metaType : MType
  metaConfidence : Option ℚ
deriving DecidableEq

/-- A row of the Supabase `agent_patterns` table (schema in docs): the
`confidence` column has default 0 and is never written by `updatePattern`. -/
structure PatternRow where
  agentId : Str
  signature : Str
  frequency : Nat
  successRate : ℚ
  confidence : ℚ
  lastUpdated : Nat
deriving DecidableEq

/-- A runtime value flowing through the cache and the recall pipeline.
`memP` is a memory read back from Redis via `JSON.parse`: its `timestamp`
is an ISO string, not a `Date`. `pat` is the degraded-mode pattern counter
object `{frequency, successes}`. -/
inductive CVal where
  | mem (m : Memory)
  | memP (m : Memory)
  | sem (s : SemRecord)
  | pat (frequency successes : Nat)
deriving DecidableEq

/-- The JS property access `value.id` (undefined on non-memory values). -/
def CVal.idField : CVal → Option Str
  | .mem m => some m.id
  | .memP m => some m.id
  | .sem _ => none
  | .pat _ _ => none

/-- The JS property access `value.type`. -/
def CVal.typeField : CVal → Option MType
  | .mem m => some m.type
  | .memP m => some m.type
  | .sem _ => none
  | .pat _ _ => none

/-- The `timestamp` property when it is an actual `Date`.  For `memP` the
property is a string: `<` against a `Date` is `false` (NaN) and `.getTime()`
throws, exactly as for a missing property, so both are `none` here. -/
def CVal.tsDate : CVal → Option Nat
  | .mem m => some m.timestamp
  | _ => none

/-- The JS property access `value.confidence`. -/
def CVal.confField : CVal → Option ℚ
  | .mem m => m.confidence
  | .memP m => m.confidence
  | _ => none

/-- Whole-manager state: the `inMemoryCache` map, the Redis backend
(string keys and list keys), and the two Supabase tables. -/
structure MState where
  cache : List (Str × CVal)
  redisKV : List (Str × Memory)
  redisLists : List (Str × List Str)
  db : List Memory
  dbPatterns : List PatternRow

def emptyState : MState := ⟨[], [], [], [], []⟩

/-- Which backends are live: `redisMode` = `this.redis` is set, `longTerm` =
`this.config.longTerm` is present, `supabase` = `this.supabase` is set,
`semantic` = `this.config.semantic` is present.  `ttl` is carried but unused
(no time passes in the model). -/
structure Config where
  redisMode : Bool
  longTerm : Bool
  supabase : Bool
  semantic : Bool
  ttl : Nat
  maxItems : Option Nat

/-- The `recall` query object. -/
structure Query where
  type : Option MType := none
  limit : Option Nat := none
  since : Option Nat := none
  sessionId : Option Str := none

/-- The `forget` criteria object. -/
structure Criteria where
  olderThan : Option Nat := none
  type : Option MType := none
  confidenceLessThan : Option ℚ := none

/-- The `remember` payload (`Omit<Memory, 'id' | 'timestamp'>`; its inner
`agentId` is overwritten by the parameter, so it is omitted here). -/
structure MemInput where
  type : MType
  content : Content
  confidence : Option ℚ := none
  embedding : Option (List ℚ) := none
  metadata : Option Str := none

/-- The `learn` outcome object. -/
structure Outcome where
  transactionId : Str
  success : Bool
  patternSig : Option Str
  confidence : ℚ

/-- `getStats` result. -/
structure Stats where
  shortTermCount : Nat
  longTermCount : Nat
  patterns : Nat
  avgConfidence : ℚ
deriving DecidableEq

/- ---------- JS helpers ---------- -/

/-- `x || d` on an optional JS number: `0` is falsy. -/
def jsOr (x : Option Nat) (d : Nat) : Nat :=
  match x with
  | some v => if v = 0 then d else v
  | none => d

/-- Truthiness of an optional JS number: `0` is falsy. -/
def numTruthy (x : Option ℚ) : Bool :=
  match x with
  | some v => decide (v ≠ 0)
  | none => false

/-- `key.startsWith(p)`. -/
def keyStarts (k p : Str) : Bool := decide (p <+: k)

/-- `key.includes(sub)` — substring containment. -/
def jsIncludes (k sub : Str) : Bool := decide (sub <:+: k)

/-- `Map.set` / Redis `SET`: replace in place if the key exists, else append. -/
def assocSet {β : Type} [DecidableEq β] (c : List (Str × β)) (k : Str) (v : β) :
    List (Str × β) :=
  if c.any (fun p => decide (p.1 = k)) then
    c.map (fun p => if p.1 = k then (k, v) else p)
  else c ++ [(k, v)]

/-- `Map.get` / Redis `GET`: `none` is JS `undefined` / Redis nil. -/
def assocGet {β : Type} (c : List (Str × β)) (k : Str) : Option β :=
  (c.find? (fun p => decide (p.1 = k))).map (·.2)

/- ---------- cache / Redis keys (template strings from the source) ----------
Written as explicit character lists (`"memory:" = ['m','e','m','o','r','y',':']`
and so on) so that prefix/equality reasoning is by list structure. -/

/-- `` `memory:${agentId}:` `` -/
def memPfx (a : Str) : Str := ['m','e','m','o','r','y',':'] ++ a ++ [':']

/-- `` `memory:${agentId}:${id}` `` -/
def memKey (a i : Str) : Str := memPfx a ++ i

/-- `` `longterm:${agentId}:` `` -/
def longPfx (a : Str) : Str := ['l','o','n','g','t','e','r','m',':'] ++ a ++ [':']

/-- `` `longterm:${agentId}:${id}` `` -/
def longKey (a i : Str) : Str := longPfx a ++ i

/-- `` `semantic:${agentId}:` `` -/
def semPfx (a : Str) : Str := ['s','e','m','a','n','t','i','c',':'] ++ a ++ [':']

/-- `` `semantic:${agentId}:${id}` `` -/
def semKey (a i : Str) : Str := semPfx a ++ i

/-- `` `pattern:${agentId}:${pattern}` `` -/
def patKey (a p : Str) : Str := ['p','a','t','t','e','r','n',':'] ++ a ++ [':'] ++ p

/-- `` `memories:${agentId}` `` -/
def listKey (a : Str) : Str := ['m','e','m','o','r','i','e','s',':'] ++ a

/- ---------- MemoryManager operations ---------- -/

/-- `storeShortTerm` (part_000 lines 125-146). Redis mode: `setex` the record,
`lpush` the id onto the agent list, `ltrim(list, 0, maxItems || 100)` — which
keeps `maxItems + 1` elements.  Degraded mode: plain `Map.set` (the
`setTimeout` TTL deletion never fires within a modelled call sequence). -/
def storeShortTerm (cfg : Config) (s : MState) (m : Memory) : MState :=
  if cfg.redisMode then
    let s1 := { s with redisKV := assocSet s.redisKV (memKey m.agentId m.id) m }
    let lk := listKey m.agentId
    let old := (assocGet s1.redisLists lk).getD []
    let trimmed := (m.id :: old).take (jsOr cfg.maxItems 100 + 1)
    { s1 with redisLists := assocSet s1.redisLists lk trimmed }
  else
    { s with cache := assocSet s.cache (memKey m.agentId m.id) (CVal.mem m) }

/-- `storeLongTerm` (lines 151-179). Without a Supabase client: cache fallback
under a `longterm:` key.  With Supabase: `insert` into `agent_memories`; a
duplicate primary key `id` is a backend error that is logged and inserts
nothing. -/
def storeLongTerm (cfg : Config) (s : MState) (m : Memory) : MState :=
  if cfg.supabase then
    if s.db.any (fun r => decide (r.id = m.id)) then s
    else { s with db := s.db ++ [m] }
  else
    { s with cache := assocSet s.cache (longKey m.agentId m.id) (CVal.mem m) }

/-- `storeSemanticMemory` (lines 185-197): only when `embedding` is a
non-empty array, put `{embedding, metadata: {id, type, confidence}}` under a
`semantic:` key. -/
def storeSemanticMemory (s : MState) (m : Memory) : MState :=
  match m.embedding with
  | some e =>
    if e.length > 0 then
      let v := CVal.sem ⟨e, m.id, m.type, m.confidence⟩
      { s with cache := assocSet s.cache (semKey m.agentId m.id) v }
    else s
  | none => s

/-- `remember` (lines 60-82): build the full memory (fresh `id`, current time
`now`, `agentId` parameter overriding the payload's), always store short-term,
store long-term iff `config.longTerm` is present, store semantic iff
`config.semantic` is present and `memory.embedding` is set (an array is
truthy even when empty; the emptiness test is inside `storeSemanticMemory`). -/
def remember (cfg : Config) (s : MState) (a : Str) (inp : MemInput)
    (id : Str) (now : Nat) : MState × Str :=
  let m : Memory := ⟨id, a, now, inp.type, inp.content, inp.confidence,
    inp.embedding, inp.metadata⟩
  let s1 := storeShortTerm cfg s m
  let s2 := if cfg.longTerm then storeLongTerm cfg s1 m else s1
  let s3 := if cfg.semantic && inp.embedding.isSome then storeSemanticMemory s2 m else s2
  (s3, m.id)

/-- `matchesQuery` (lines 478-482): `type` must match exactly when given;
`since` excludes records whose `timestamp < since` (comparisons on a value
without a `Date` timestamp are NaN-false, so they never exclude). -/
def matchesQuery (v : CVal) (q : Query) : Bool :=
  if q.type.isSome && !(v.typeField == q.type) then false
  else if q.since.isSome &&
      (match v.tsDate, q.since with
       | some ts, some d => decide (ts < d)
       | _, _ => false) then false
  else true

/-- `queryShortTerm` (lines 202-231). Redis mode: `lrange(list, 0, limit || 10)`
(an inclusive range: `limit + 1` ids), resolve each id, `JSON.parse` (yielding
`memP`), filter by `matchesQuery`.  Degraded mode: scan every cache entry whose
key starts with `memory:{agentId}:` — the limit is ignored. -/
def queryShortTerm (cfg : Config) (s : MState) (a : Str) (q : Query) : List CVal :=
  if cfg.redisMode then
    let ids := ((assocGet s.redisLists (listKey a)).getD []).take (jsOr q.limit 10 + 1)
    ids.filterMap (fun i =>
      match assocGet s.redisKV (memKey a i) with
      | some m => if matchesQuery (CVal.memP m) q then some (CVal.memP m) else none
      | none => none)
  else
    (s.cache.filter (fun p => keyStarts p.1 (memPfx a) && matchesQuery p.2 q)).map (·.2)

/-- `queryLongTerm` (lines 236-289). Without Supabase: scan `longterm:{agentId}:`
cache entries with `matchesQuery`.  With Supabase: ANDed filters — `agent_id`
equality, `memory_type` equality if `query.type` is truthy, `created_at >= since`
if given, and `.limit(query.limit)` only if `query.limit` is truthy (0 is not). -/
def queryLongTerm (cfg : Config) (s : MState) (a : Str) (q : Query) : List CVal :=
  if cfg.supabase then
    let rows := s.db.filter (fun r =>
      decide (r.agentId = a)
      && (match q.type with | some t => decide (r.type = t) | none => true)
      && (match q.since with | some d => decide (d ≤ r.timestamp) | none => true))
    let rows := match q.limit with
      | some l => if l = 0 then rows else rows.take l
      | none => rows
    rows.map CVal.mem
  else
    (s.cache.filter (fun p => keyStarts p.1 (longPfx a) && matchesQuery p.2 q)).map (·.2)

/-- `querySemanticMemory` (lines 294-308): every `semantic:{agentId}:` cache
entry whose `metadata.type === 'pattern'` — the raw stored object is pushed,
not a `Memory`.  (By construction only `CVal.sem` values sit under `semantic:`
keys, so the `metadata.type` access is modelled on those.) -/
def querySemanticMemory (s : MState) (a : Str) : List CVal :=
  (s.cache.filter (fun p => keyStarts p.1 (semPfx a) &&
    (match p.2 with | CVal.sem r => decide (r.metaType = MType.pattern) | _ => false))).map (·.2)

/-- `deduplicateMemories` (lines 497-504): keep the first occurrence of each
`memory.id` (JS `Set` holds `undefined` as a key like any other). -/
def dedupKeep (seen : List (Option Str)) : List CVal → List CVal
  | [] => []
  | v :: rest =>
    if v.idField ∈ seen then dedupKeep seen rest
    else v :: dedupKeep (v.idField :: seen) rest

def deduplicateMemories (l : List CVal) : List CVal := dedupKeep [] l

/-- The JS sort order of `(a, b) => b.timestamp.getTime() - a.timestamp.getTime()`:
`a` sorts no later than `b` iff `b.timestamp ≤ a.timestamp`. -/
def byTsDesc (x y : CVal) : Prop := (CVal.tsDate y).getD 0 ≤ (CVal.tsDate x).getD 0

instance : DecidableRel byTsDesc :=
  fun x y => inferInstanceAs (Decidable ((CVal.tsDate y).getD 0 ≤ (CVal.tsDate x).getD 0))

instance : IsTotal CVal byTsDesc := ⟨fun _ _ => Nat.le_total _ _⟩

instance : IsTrans CVal byTsDesc := ⟨fun _ _ _ h1 h2 => Nat.le_trans h2 h1⟩

/-- The final `.sort(...)` of `recall` (line 119).  With fewer than two
elements the comparator never runs.  Otherwise the comparator calls
`.getTime()` on every element's `timestamp`; any element whose `timestamp` is
not a `Date` (a raw semantic record, or a Redis `JSON.parse` result where it
is a string) makes the call throw a `TypeError`.  JS `Array.prototype.sort`
is stable, so a stable insertion sort models the successful case. -/
def sortMemories (l : List CVal) : Except String (List CVal) :=
  if l.length ≤ 1 then .ok l
  else if l.all (fun v => v.tsDate.isSome) then .ok (List.insertionSort byTsDesc l)
  else .error "TypeError: getTime is not a function"

/-- The three-tier gather of `recall` (lines 99-115): short-term always; long-term
when the accumulated count is below `limit || 10` and a long-term tier is
configured; semantic when the query type is `pattern` and a semantic tier is
configured. -/
def recallCombined (cfg : Config) (s : MState) (a : Str) (q : Query) : List CVal :=
  let m1 := queryShortTerm cfg s a q
  let m2 := if decide (m1.length < jsOr q.limit 10) && cfg.longTerm
    then queryLongTerm cfg s a q else []
  let m3 := if (q.type == some MType.pattern) && cfg.semantic
    then querySemanticMemory s a else []
  m1 ++ m2 ++ m3

/-- `recall` (lines 90-120): gather, deduplicate, sort by timestamp descending.
(`recall` is a reserved word in this Lean environment, hence the quoting.) -/
def «recall» (cfg : Config) (s : MState) (a : Str) (q : Query) :
    Except String (List CVal) :=
  sortMemories (deduplicateMemories (recallCombined cfg s a q))

/-- `updatePattern` (lines 344-375).  Supabase mode: `upsert` a row with the
literal values `frequency: 1`, `success_rate: success ? 1 : 0` — on conflict of
`(agent_id, pattern_signature)` this overwrites those columns (the unspecified
`confidence` column keeps its value; on insert it takes its default 0).
Degraded mode: increment the in-process `{frequency, successes}` counters.
(Only `CVal.pat` values ever sit under `pattern:` keys.) -/
def updatePattern (cfg : Config) (s : MState) (a p : Str) (success : Bool)
    (now : Nat) : MState :=
  if cfg.supabase then
    let overwrite : PatternRow → PatternRow := fun r =>
      ⟨r.agentId, r.signature, 1, (if success then 1 else 0), r.confidence, now⟩
    if s.dbPatterns.any (fun r => decide (r.agentId = a ∧ r.signature = p)) then
      { s with dbPatterns := s.dbPatterns.map (fun r =>
          if r.agentId = a ∧ r.signature = p then overwrite r else r) }
    else
      { s with dbPatterns := s.dbPatterns ++
          [⟨a, p, 1, if success then 1 else 0, 0, now⟩] }
  else
    let k := patKey a p
    let fs : Nat × Nat := match assocGet s.cache k with
      | some (CVal.pat f sc) => (f, sc)
      | _ => (0, 0)
    let v := CVal.pat (fs.1 + 1) (fs.2 + if success then 1 else 0)
    { s with cache := assocSet s.cache k v }

/-- `learn` (lines 313-339): store a pattern memory via `remember` (content
`{transactionId, success, pattern}`, metadata `{learned: true, ...}`), then
update the pattern aggregate when `outcome.pattern` is a truthy (non-empty)
string. -/
def learn (cfg : Config) (s : MState) (a : Str) (o : Outcome)
    (id : Str) (now : Nat) : MState :=
  let s1 := (remember cfg s a
    ⟨MType.pattern, Content.learnPayload o.transactionId o.success o.patternSig,
      some o.confidence, none, some "learned".toList⟩ id now).1
  match o.patternSig with
  | some p => if p ≠ [] then updatePattern cfg s1 a p o.success now else s1
  | none => s1

/-- `matchesForgetCriteria` (lines 487-492): the criteria are ORed — any single
provided criterion that matches suffices.  `criteria.confidenceLessThan` is
tested for truthiness (`0` is falsy here, unlike the Supabase pass);
comparisons against missing properties are NaN-false. -/
def matchesForgetCriteria (v : CVal) (cr : Criteria) : Bool :=
  (match cr.olderThan, v.tsDate with
   | some d, some ts => decide (ts < d)
   | _, _ => false)
  || (match cr.type with
      | some t => v.typeField == some t
      | none => false)
  || (match cr.confidenceLessThan with
      | some c =>
        if c = 0 then false
        else match v.confField with
          | some cv => decide (cv < c)
          | none => false
      | none => false)

/-- The ANDed Supabase delete predicate built by `forget` (lines 389-404):
`agent_id` equality plus each provided criterion (`confidenceLessThan` is
compared with `!== undefined`, so `0` counts; SQL `NULL < c` never matches). -/
def forgetAnd (r : Memory) (a : Str) (cr : Criteria) : Bool :=
  decide (r.agentId = a)
  && (match cr.olderThan with | some d => decide (r.timestamp < d) | none => true)
  && (match cr.type with | some t => decide (r.type = t) | none => true)
  && (match cr.confidenceLessThan with
      | some c => (match r.confidence with
          | some cv => decide (cv < c)
          | none => false)
      | none => true)

/-- `forget` (lines 380-427): when Supabase is configured, a deletion pass with
ANDed criteria on `agent_memories`; then always an in-process pass deleting
every cache entry whose key *contains* the agent id as a substring and that
matches the ORed criteria.  Returns the summed count. -/
def forget (cfg : Config) (s : MState) (a : Str) (cr : Criteria) : MState × Nat :=
  let dbDeleted := if cfg.supabase then (s.db.filter (fun r => forgetAnd r a cr)).length else 0
  let db2 := if cfg.supabase then s.db.filter (fun r => !(forgetAnd r a cr)) else s.db
  let hit : Str × CVal → Bool := fun p => jsIncludes p.1 a && matchesForgetCriteria p.2 cr
  let cacheDeleted := (s.cache.filter hit).length
  ({ s with db := db2, cache := s.cache.filter (fun p => !(hit p)) },
    dbDeleted + cacheDeleted)

/-- `getStats` (lines 432-473): short-term count is Redis `llen` — and stays 0
in degraded mode; long-term count and pattern stats come only from Supabase;
`avgConfidence` averages the `confidence` column of `agent_patterns`. -/
def getStats (cfg : Config) (s : MState) (a : Str) : Stats :=
  let stc := if cfg.redisMode then ((assocGet s.redisLists (listKey a)).getD []).length else 0
  if cfg.supabase then
    let ltc := (s.db.filter (fun r => decide (r.agentId = a))).length
    let prows := s.dbPatterns.filter (fun r => decide (r.agentId = a))
    if prows.length > 0 then
      ⟨stc, ltc, prows.length, (prows.map (·.confidence)).sum / prows.length⟩
    else ⟨stc, ltc, 0, 0⟩
  else
    ⟨stc, 0, 0, 0⟩

/- ---------- traces of remember calls ---------- -/

/-- One `remember` invocation: agent, payload, the fresh id `generateId`
produced, and the clock value used for the timestamp. -/
structure RCall where
  agent : Str
  inp : MemInput
  id : Str
  now : Nat

/-- The full memory record a call creates (line 61-66 of `remember`). -/
def RCall.mk' (c : RCall) : Memory :=
  ⟨c.id, c.agent, c.now, c.inp.type, c.inp.content, c.inp.confidence,
    c.inp.embedding, c.inp.metadata⟩

def runTrace (cfg : Config) (s : MState) : List RCall → MState
  | [] => s
  | c :: rest => runTrace cfg (remember cfg s c.agent c.inp c.id c.now).1 rest

/- ---------- concrete configurations and states used by the closed theorems ---------- -/

/-- Degraded in-process mode: the test suite's configuration (provider
'memory', no long-term tier, no semantic tier). -/
def cfgD : Config := ⟨false, false, false, false, 3600, some 100⟩

/-- Degraded mode with a long-term tier configured but no Supabase client. -/
def cfgDL : Config := ⟨false, true, false, false, 3600, some 100⟩

/-- Degraded short-term with a semantic tier configured. -/
def cfgSem : Config := ⟨false, false, false, true, 3600, some 100⟩

/-- Redis short-term with `maxItems = 1`, no long-term tier. -/
def cfgR1 : Config := ⟨true, false, false, false, 3600, some 1⟩

/-- Degraded short-term with a Supabase-backed long-term tier. -/
def cfgSup : Config := ⟨false, true, true, false, 3600, some 100⟩

def aA : Str := "a".toList

def inpT (c : Str) : MemInput :=
  ⟨MType.transaction, Content.raw c, some (mkRat 1 1), none, none⟩

def em1 : Memory :=
  ⟨"i1".toList, aA, 100, MType.transaction, Content.raw "c1".toList, some (mkRat 1 1), none, none⟩

def em2 : Memory :=
  ⟨"i2".toList, aA, 200, MType.transaction, Content.raw "c2".toList, some (mkRat 1 1), none, none⟩

/-- Three `remember` calls for one agent (fresh ids, increasing clock). -/
def trace3 : List RCall :=
  [⟨aA, inpT "c1".toList, "i1".toList, 100⟩,
   ⟨aA, inpT "c2".toList, "i2".toList, 200⟩,
   ⟨aA, inpT "c3".toList, "i3".toList, 300⟩]

def s3R : MState := runTrace cfgR1 emptyState trace3

/-- A pattern-type memory carrying an embedding. -/
def inpP : MemInput :=
  ⟨MType.pattern, Content.raw "p1".toList, some (mkRat 9 10), some [mkRat 1 1], none⟩

def sSem : MState := (remember cfgSem emptyState aA inpP "i1".toList 100).1

/- ---------- C2 ---------- -/

/-- Claim C2 (code bug): `recall` is claimed never to raise, for every filter,
including pattern-type queries when a semantic tier is configured and holds
entries.  In fact, after one `remember` of a pattern-type memory with an
embedding, `recall` with `{type: 'pattern'}` gathers the memory from the
short-term tier and the raw `{embedding, metadata}` object from the semantic
tier; that object has no `timestamp`, so the sort comparator at line 119
throws a `TypeError`. -/
theorem recall_semantic_pattern_throws :
    «recall» cfgSem sSem aA ⟨some MType.pattern, none, none, none⟩ =
      .error "TypeError: getTime is not a function" := by
  rfl

/- ---------- C7 ---------- -/

def aB : Str := "ab".toList

def mB : Memory :=
  ⟨"i1".toList, aB, 100, MType.transaction, Content.raw "c".toList, some (mkRat 3 10), none, none⟩

def sB : MState := { emptyState with cache := [(memKey aB "i1".toList, CVal.mem mB)] }

def crConf : Criteria := ⟨none, none, some (mkRat 1 2)⟩

/-- Claim C7 (code bug): `forget(A, criteria)` is claimed to leave every other
agent's memories unchanged.  The in-process pass of `forget` (line 420)
selects cache entries by `key.includes(agentId)` — a substring test — so with
agents `"a"` and `"ab"`, `forget("a", {confidenceLessThan: 0.5})` deletes the
key `memory:ab:i1` belonging to agent `"ab"`, and a subsequent
`recall("ab")` that returned one memory before the call returns none after. -/
theorem forget_deletes_other_agent :
    «recall» cfgD sB aB {} = .ok [CVal.mem mB] ∧
    (forget cfgD sB aA crConf).2 = 1 ∧
    «recall» cfgD (forget cfgD sB aA crConf).1 aB {} = .ok [] := by
  exact ⟨rfl, rfl, rfl⟩

/- ---------- C8 ---------- -/

def s8 : MState := (remember cfgD emptyState aA (inpT "c".toList) "i1".toList 100).1

/-- Claim C8 (code bug): `getStats().shortTermCount` is claimed to equal the
number of memories visible in the short-term tier in both modes.  In degraded
mode (`this.redis` unset) `getStats` never counts the in-memory cache and
returns 0 even though one memory is visible — contradicting the repository's
own test, which runs with provider 'memory' and asserts
`stats.shortTermCount > 0` after one `remember`. -/
theorem getStats_shortTermCount_zero_degraded :
    (getStats cfgD s8 aA).shortTermCount = 0 ∧
    (queryShortTerm cfgD s8 aA {}).length = 1 := by
  exact ⟨rfl, rfl⟩

/- ---------- C9 ---------- -/

def s9 : MState :=
  learn cfgSup
    (learn cfgSup emptyState aA ⟨"t1".toList, true, some "p".toList, mkRat 9 10⟩ "i1".toList 100)
    aA ⟨"t2".toList, true, some "p".toList, mkRat 9 10⟩ "i2".toList 200

/-- Claim C9 (code bug): after n learning events for one signature the stored
PatternStat is claimed to have frequency n, each event incrementing the
aggregate.  The Supabase branch of `updatePattern` (lines 349-360) upserts the
literal row `{frequency: 1, success_rate: success ? 1 : 0}`, a blind overwrite:
after two successful events for signature "p" the stored row still has
`frequency = 1` (the degraded branch, by contrast, does increment). -/
theorem updatePattern_supabase_not_additive :
    s9.dbPatterns = [⟨aA, "p".toList, 1, 1, 0, 200⟩] := by
  rfl

/- ---------- C10 ---------- -/

/-- Claim C10 (confirmed): `recall` with an explicit `limit` of 0 behaves
identically to `recall` with no `limit`: both `query.limit || 10` sites treat
0 as falsy and use the default 10, and `if (query.limit)` in the Supabase
long-term query skips the limit constraint for 0 just as for `undefined`. -/
theorem recall_limit_zero_eq_no_limit (cfg : Config) (s : MState) (a : Str)
    (t : Option MType) (sn : Option Nat) (sid : Option Str) :
    «recall» cfg s a ⟨t, some 0, sn, sid⟩ = «recall» cfg s a ⟨t, none, sn, sid⟩ := by
  rfl

/- ---------- C4 ---------- -/

/-- The C4 record: `confidence = 0.3`, `type = 'transaction'`. -/
def c4mem (a i c : Str) (ts : Nat) : Memory :=
  ⟨i, a, ts, MType.transaction, Content.raw c, some (mkRat 3 10), none, none⟩

/-- A state holding the C4 record both in the in-process cache (under its
short-term key) and in the Supabase `agent_memories` table. -/
def c4state (a i c : Str) (ts : Nat) : MState :=
  { emptyState with cache := [(memKey a i, CVal.mem (c4mem a i c ts))], db := [c4mem a i c ts] }

/-- The C4 criteria: `{type: 'decision', confidenceLessThan: 0.5}`. -/
def c4criteria : Criteria := ⟨none, some MType.decision, some (mkRat 1 2)⟩

/-- The agent id is always a substring of its own short-term key. -/
theorem agent_infix_memKey (a i : Str) : a <:+: memKey a i :=
  ⟨['m','e','m','o','r','y',':'], ':' :: i, by simp [memKey, memPfx]⟩

/-- Claim C4 (confirmed): for a stored record with `confidence = 0.3` and
`type = 'transaction'` and criteria `{type: 'decision', confidenceLessThan: 0.5}`,
the ORed in-process pass of `forget` matches (the confidence criterion alone
suffices) and deletes the cached record, the ANDed Supabase pass does not
match (type mismatch) and leaves the table row, and the returned count is the
sum of the two passes: 0 + 1 = 1. -/
theorem forget_asymmetry_or_vs_and (a i c : Str) (ts : Nat) :
    matchesForgetCriteria (CVal.mem (c4mem a i c ts)) c4criteria = true ∧
    forgetAnd (c4mem a i c ts) a c4criteria = false ∧
    (forget cfgSup (c4state a i c ts) a c4criteria).1.cache = [] ∧
    (forget cfgSup (c4state a i c ts) a c4criteria).1.db = [c4mem a i c ts] ∧
    (forget cfgSup (c4state a i c ts) a c4criteria).2 = 1 := by
  have hm : matchesForgetCriteria (CVal.mem (c4mem a i c ts)) c4criteria = true := by rfl
  have ha : forgetAnd (c4mem a i c ts) a c4criteria = false := by
    simp [forgetAnd, c4mem, c4criteria]
  have hinc : jsIncludes (memKey a i) a = true := by
    simp [jsIncludes]
    exact agent_infix_memKey a i
  refine ⟨hm, ha, ?_, ?_, ?_⟩ <;>
    simp [forget, c4state, emptyState, cfgSup, hinc, hm, ha]

/- ---------- C5 ---------- -/

/-- `dedupKeep` keeps, among the entries with a given id, exactly the first
one not already seen. -/
theorem dedupKeep_filter (k : Option Str) :
    ∀ (l : List CVal) (seen : List (Option Str)),
      (dedupKeep seen l).filter (fun v => v.idField == k) =
        if k ∈ seen then [] else (l.filter (fun v => v.idField == k)).take 1 := by
  intro l
  induction l with
  | nil =>
    intro seen
    by_cases hk : k ∈ seen <;> simp [dedupKeep, hk]
  | cons v rest ih =>
    intro seen
    by_cases hv : v.idField ∈ seen
    · rw [dedupKeep, if_pos hv, ih seen]
      by_cases hk : k ∈ seen
      · simp [hk]
      · have hvk : v.idField ≠ k := fun h => hk (h ▸ hv)
        have hgv : (v.idField == k) = false := by simpa using hvk
        simp [hk, List.filter_cons, hgv]
    · rw [dedupKeep, if_neg hv, List.filter_cons]
      by_cases hvk : v.idField = k
      · have hk : k ∉ seen := fun h => hv (by rw [hvk]; exact h)
        have hgv : (v.idField == k) = true := by simpa using hvk
        have hmem : k ∈ v.idField :: seen := by
          rw [← hvk]; exact List.mem_cons_self _ _
        rw [ih (v.idField :: seen)]
        simp [hgv, hmem, hk, List.filter_cons]
      · have hgv : (v.idField == k) = false := by simpa using hvk
        have hmem : (k ∈ v.idField :: seen) ↔ k ∈ seen := by
          constructor
          · intro h
            rcases List.mem_cons.mp h with h1 | h2
            · exact absurd h1.symm hvk
            · exact h2
          · intro h
            exact List.mem_cons_of_mem _ h
        rw [ih (v.idField :: seen)]
        by_cases hk : k ∈ seen
        · simp [hgv, hmem, hk, List.filter_cons]
        · simp [hgv, hmem, hk, List.filter_cons]

/-- `deduplicateMemories` keeps exactly the first occurrence of each id. -/
theorem dedup_filter (k : Option Str) (l : List CVal) :
    (deduplicateMemories l).filter (fun v => v.idField == k) =
      (l.filter (fun v => v.idField == k)).take 1 := by
  simpa using dedupKeep_filter k l []

/-- Claim C5 (confirmed): whenever `recall` returns a list, the entries of
that list with any given id `x` are exactly the first occurrence of `x` in the
combined tier order (short-term results, then long-term, then semantic) — one
entry per id, first tier wins. -/
theorem recall_dedup_first_occurrence (cfg : Config) (s : MState) (a : Str)
    (q : Query) (l : List CVal) (x : Str)
    (h : «recall» cfg s a q = .ok l) :
    l.filter (fun v => v.idField == some x) =
      ((recallCombined cfg s a q).filter (fun v => v.idField == some x)).take 1 := by
  have hd := dedup_filter (some x) (recallCombined cfg s a q)
  unfold «recall» sortMemories at h
  split at h
  · injection h with h
    rw [← h, hd]
  · split at h
    · injection h with h
      have hperm : (l.filter (fun v => v.idField == some x)).Perm
          ((deduplicateMemories (recallCombined cfg s a q)).filter
            (fun v => v.idField == some x)) := by
        rw [← h]
        exact (List.perm_insertionSort byTsDesc _).filter _
      rw [hd] at hperm
      cases hl : (recallCombined cfg s a q).filter (fun v => v.idField == some x) with
      | nil =>
        rw [hl] at hperm
        simp only [List.take_nil] at hperm ⊢
        exact List.perm_nil.mp hperm
      | cons y t =>
        rw [hl] at hperm
        have ht : (y :: t).take 1 = [y] := by simp
        rw [ht] at hperm ⊢
        exact List.perm_singleton.mp hperm
    · cases h

def mC5 : Memory :=
  ⟨"i1".toList, aA, 100, MType.transaction, Content.raw "c1".toList, some (mkRat 1 1), none, none⟩

/-- One `remember` with a degraded long-term tier: the same id is visible in
both the short-term and the long-term tier. -/
def sC5 : MState := runTrace cfgDL emptyState [⟨aA, inpT "c1".toList, "i1".toList, 100⟩]

/-- Witness for C5: with id `i1` stored in two tiers, `recall` returns exactly
one entry with that id, the short-term occurrence. -/
theorem recall_dedup_first_occurrence_witness :
    («recall» cfgDL sC5 aA {} = .ok [CVal.mem mC5]) ∧
    ([CVal.mem mC5].filter (fun v => v.idField == some "i1".toList) =
      ((recallCombined cfgDL sC5 aA {}).filter
        (fun v => v.idField == some "i1".toList)).take 1) :=
  ⟨rfl, recall_dedup_first_occurrence cfgDL sC5 aA {} [CVal.mem mC5] "i1".toList rfl⟩

/- ---------- C6 ---------- -/

/-- Non-strict descending-timestamp ordering between adjacent elements. -/
def sortedByTsDesc (l : List CVal) : Prop := l.Chain' byTsDesc

/-- Strict descending-timestamp ordering between adjacent elements (each
element's timestamp strictly later than the next element's). -/
def strictlyByTsDesc (l : List CVal) : Prop :=
  l.Chain' (fun v w => (CVal.tsDate w).getD 0 < (CVal.tsDate v).getD 0)

theorem chain'_of_len_le_one {R : CVal → CVal → Prop} {l : List CVal}
    (h : l.length ≤ 1) : l.Chain' R := by
  match l with
  | [] => exact List.chain'_nil
  | [v] => exact List.chain'_singleton v
  | v :: w :: t => simp [List.length_cons] at h

def traceEq : List RCall :=
  [⟨aA, inpT "c1".toList, "i1".toList, 100⟩, ⟨aA, inpT "c2".toList, "i2".toList, 100⟩]

def sC6 : MState := runTrace cfgD emptyState traceEq

def lC6 : List CVal :=
  [CVal.mem ⟨"i1".toList, aA, 100, MType.transaction, Content.raw "c1".toList, some (mkRat 1 1), none, none⟩,
   CVal.mem ⟨"i2".toList, aA, 100, MType.transaction, Content.raw "c2".toList, some (mkRat 1 1), none, none⟩]

/-- Counterexample to C6 as stated: two memories stored by `remember` in the
same millisecond (`Date.now()` has millisecond resolution) have equal
timestamps; `recall` returns them adjacent, so the output is not strictly
descending. -/
theorem recall_equal_timestamps_cex :
    «recall» cfgD sC6 aA {} = .ok lC6 ∧ ¬ strictlyByTsDesc lC6 := by
  constructor
  · rfl
  · simp [strictlyByTsDesc, lC6, List.chain'_cons, CVal.tsDate]

/-- Claim C6 (amended): whenever `recall` returns a list, that list is sorted
by timestamp in non-increasing (descending, but not strictly) order: each
element's timestamp is at least the next element's. -/
theorem recall_sorted_desc_nonstrict (cfg : Config) (s : MState) (a : Str)
    (q : Query) (l : List CVal) (h : «recall» cfg s a q = .ok l) :
    sortedByTsDesc l := by
  unfold «recall» sortMemories at h
  split at h
  · rename_i h1
    injection h with h
    rw [← h]
    exact chain'_of_len_le_one h1
  · split at h
    · injection h with h
      rw [← h]
      exact (List.sorted_insertionSort byTsDesc _).chain'
    · cases h

/-- Witness for the amended C6 at a concrete state. -/
theorem recall_sorted_desc_nonstrict_witness :
    («recall» cfgD sC6 aA {} = .ok lC6) ∧ sortedByTsDesc lC6 :=
  ⟨rfl, recall_sorted_desc_nonstrict cfgD sC6 aA {} lC6 rfl⟩

/- ---------- C3 ---------- -/

theorem assocGet_mem {β : Type} {c : List (Str × β)} {k : Str} {v : β}
    (h : assocGet c k = some v) : (k, v) ∈ c := by
  unfold assocGet at h
  cases hf : c.find? (fun p => decide (p.1 = k)) with
  | none => rw [hf] at h; cases h
  | some p =>
    rw [hf] at h
    simp only [Option.map_some'] at h
    have hp := List.mem_of_find?_eq_some hf
    have hpred := List.find?_some hf
    simp only [decide_eq_true_eq] at hpred
    have hpe : p = (k, v) := by
      cases p
      simp_all
    rw [← hpe]
    exact hp

theorem mem_assocSet {β : Type} [DecidableEq β] {c : List (Str × β)} {k : Str} {v : β}
    {p : Str × β} (h : p ∈ assocSet c k v) : p ∈ c ∨ p = (k, v) := by
  unfold assocSet at h
  split at h
  · rcases List.mem_map.mp h with ⟨q, hq, hqe⟩
    by_cases hqk : q.1 = k
    · right
      rw [← hqe]
      simp [hqk]
    · left
      rw [← hqe]
      simp only [if_neg hqk]
      exact hq
  · rcases List.mem_append.mp h with h1 | h2
    · left; exact h1
    · right; simpa using h2

/-- A single `storeShortTerm` keeps every Redis list at length at most
`(maxItems || 100) + 1`: `ltrim(key, 0, maxItems || 100)` keeps that many. -/
theorem storeShortTerm_lists_bounded (cfg : Config) (s : MState) (m : Memory)
    (hs : ∀ p ∈ s.redisLists, p.2.length ≤ jsOr cfg.maxItems 100 + 1) :
    ∀ p ∈ (storeShortTerm cfg s m).redisLists, p.2.length ≤ jsOr cfg.maxItems 100 + 1 := by
  intro p hp
  unfold storeShortTerm at hp
  split at hp
  · dsimp only at hp
    rcases mem_assocSet hp with h1 | h2
    · exact hs p h1
    · rw [h2]
      simp only [List.length_take]
      exact min_le_left _ _
  · exact hs p hp

theorem storeLongTerm_redisLists (cfg : Config) (s : MState) (m : Memory) :
    (storeLongTerm cfg s m).redisLists = s.redisLists := by
  unfold storeLongTerm
  split
  · split <;> rfl
  · rfl

theorem storeSemanticMemory_redisLists (s : MState) (m : Memory) :
    (storeSemanticMemory s m).redisLists = s.redisLists := by
  unfold storeSemanticMemory
  split
  · split <;> rfl
  · rfl

theorem remember_lists_bounded (cfg : Config) (s : MState) (a : Str)
    (inp : MemInput) (id : Str) (now : Nat)
    (hs : ∀ p ∈ s.redisLists, p.2.length ≤ jsOr cfg.maxItems 100 + 1) :
    ∀ p ∈ ((remember cfg s a inp id now).1).redisLists,
      p.2.length ≤ jsOr cfg.maxItems 100 + 1 := by
  intro p hp
  unfold remember at hp
  dsimp only at hp
  have h1 := storeShortTerm_lists_bounded cfg s
    ⟨id, a, now, inp.type, inp.content, inp.confidence, inp.embedding, inp.metadata⟩ hs
  by_cases hsem : (cfg.semantic && inp.embedding.isSome) = true
  · rw [if_pos hsem, storeSemanticMemory_redisLists] at hp
    by_cases hlt : cfg.longTerm = true
    · rw [if_pos hlt, storeLongTerm_redisLists] at hp
      exact h1 p hp
    · rw [if_neg hlt] at hp
      exact h1 p hp
  · rw [if_neg hsem] at hp
    by_cases hlt : cfg.longTerm = true
    · rw [if_pos hlt, storeLongTerm_redisLists] at hp
      exact h1 p hp
    · rw [if_neg hlt] at hp
      exact h1 p hp

/-- Every reachable state keeps each per-agent Redis index at length at most
`(maxItems || 100) + 1`, trimmed on every write. -/
theorem runTrace_lists_bounded (cfg : Config) :
    ∀ (T : List RCall) (s : MState),
      (∀ p ∈ s.redisLists, p.2.length ≤ jsOr cfg.maxItems 100 + 1) →
      ∀ p ∈ (runTrace cfg s T).redisLists, p.2.length ≤ jsOr cfg.maxItems 100 + 1 := by
  intro T
  induction T with
  | nil =>
    intro s hs
    simpa [runTrace] using hs
  | cons c rest ih =>
    intro s hs
    rw [runTrace]
    exact ih _ (remember_lists_bounded cfg s c.agent c.inp c.id c.now hs)

/-- Counterexample to C3 as stated: in Redis mode with `maxItems = 1`, after
storing `maxItems + 2 = 3` memories, 2 memories are visible through the
short-term tier — more than `maxItems`.  (`ltrim(key, 0, maxItems)` keeps
`maxItems + 1` elements, an off-by-one against the claim.) -/
theorem shortTerm_bound_exceeded_cex :
    (queryShortTerm cfgR1 s3R aA ⟨none, some 100, none, none⟩).length = 2 ∧
    jsOr cfgR1.maxItems 100 = 1 ∧
    ¬ ((queryShortTerm cfgR1 s3R aA ⟨none, some 100, none, none⟩).length ≤
        jsOr cfgR1.maxItems 100) := by
  refine ⟨rfl, rfl, ?_⟩
  decide

/-- Claim C3 (amended): in Redis mode, after any sequence of `remember` calls,
at most `maxItems + 1` memories are visible through the short-term tier for
any agent and query (the per-agent index is trimmed on every write to
`maxItems + 1` ids — the trim keeps list positions 0 through `maxItems`
inclusive).  The degraded in-process store is not bounded at all. -/
theorem shortTerm_visible_le_maxItems_succ (cfg : Config) (T : List RCall)
    (a : Str) (q : Query) (hr : cfg.redisMode = true) :
    (queryShortTerm cfg (runTrace cfg emptyState T) a q).length ≤
      jsOr cfg.maxItems 100 + 1 := by
  have hinv := runTrace_lists_bounded cfg T emptyState (by intro p hp; simp [emptyState] at hp)
  unfold queryShortTerm
  rw [hr]
  simp only [if_true]
  have hlst : ((assocGet (runTrace cfg emptyState T).redisLists (listKey a)).getD []).length ≤
      jsOr cfg.maxItems 100 + 1 := by
    cases hg : assocGet (runTrace cfg emptyState T).redisLists (listKey a) with
    | none => simp [hg]
    | some L =>
      have := hinv (listKey a, L) (assocGet_mem hg)
      simpa [hg] using this
  refine le_trans (List.length_filterMap_le _ _) (le_trans ?_ hlst)
  simp only [List.length_take]
  exact min_le_right _ _

/-- Witness for the amended C3 at the concrete three-store Redis trace. -/
theorem shortTerm_visible_le_maxItems_succ_witness :
    cfgR1.redisMode = true ∧
    (queryShortTerm cfgR1 (runTrace cfgR1 emptyState trace3) aA
      ⟨none, some 100, none, none⟩).length ≤ jsOr cfgR1.maxItems 100 + 1 :=
  ⟨rfl, shortTerm_visible_le_maxItems_succ cfgR1 trace3 aA ⟨none, some 100, none, none⟩ rfl⟩

/- ---------- C1, counterexample ---------- -/

/-- Counterexample to C1 as stated: in Redis mode (`maxItems = 1`, no
long-term tier), after three `remember` calls a `recall` with a large limit —
or the default — returns no memory at all: it throws.  The short-term read
path returns `JSON.parse`d records whose `timestamp` is an ISO string, and
the sort comparator calls `.getTime()` on it.  (Trimming also lost the oldest
id, so even a repaired sort could return at most 2 of the 3.) -/
theorem recall_redis_mode_throws_cex :
    «recall» cfgR1 (runTrace cfgR1 emptyState trace3) aA ⟨none, some 100, none, none⟩ =
      .error "TypeError: getTime is not a function" ∧
    «recall» cfgR1 (runTrace cfgR1 emptyState trace3) aA {} =
      .error "TypeError: getTime is not a function" ∧
    ((assocGet (runTrace cfgR1 emptyState trace3).redisLists (listKey aA)).getD []) =
      ["i3".toList, "i2".toList] :=
  ⟨rfl, rfl, rfl⟩

/- ---------- C1, amended round trip in degraded mode ---------- -/

theorem assocSet_fresh {β : Type} [DecidableEq β] (c : List (Str × β)) (k : Str) (v : β)
    (h : ∀ p ∈ c, p.1 ≠ k) : assocSet c k v = c ++ [(k, v)] := by
  unfold assocSet
  rw [if_neg]
  simp only [List.any_eq_true, decide_eq_true_eq, not_exists]
  intro p
  intro hc
  rcases hc with ⟨hp, he⟩
  exact h p hp he

theorem memKey_ne_longKey (a i b j : Str) : memKey a i ≠ longKey b j := by
  simp [memKey, memPfx, longKey, longPfx]

theorem memKey_ne_semKey (a i b j : Str) : memKey a i ≠ semKey b j := by
  simp [memKey, memPfx, semKey, semPfx]

theorem longKey_ne_semKey (a i b j : Str) : longKey a i ≠ semKey b j := by
  simp [longKey, longPfx, semKey, semPfx]

def akey (c : RCall) : Str := c.agent ++ ':' :: c.id

theorem memKey_eq (a i : Str) :
    memKey a i = ['m','e','m','o','r','y',':'] ++ (a ++ ':' :: i) := by
  simp [memKey, memPfx]

theorem longKey_eq (a i : Str) :
    longKey a i = ['l','o','n','g','t','e','r','m',':'] ++ (a ++ ':' :: i) := by
  simp [longKey, longPfx]

theorem semKey_eq (a i : Str) :
    semKey a i = ['s','e','m','a','n','t','i','c',':'] ++ (a ++ ':' :: i) := by
  simp [semKey, semPfx]

theorem memKey_inj {a i b j : Str} (h : memKey a i = memKey b j) :
    a ++ ':' :: i = b ++ ':' :: j := by
  rw [memKey_eq, memKey_eq] at h
  exact List.append_cancel_left h

theorem longKey_inj {a i b j : Str} (h : longKey a i = longKey b j) :
    a ++ ':' :: i = b ++ ':' :: j := by
  rw [longKey_eq, longKey_eq] at h
  exact List.append_cancel_left h

theorem semKey_inj {a i b j : Str} (h : semKey a i = semKey b j) :
    a ++ ':' :: i = b ++ ':' :: j := by
  rw [semKey_eq, semKey_eq] at h
  exact List.append_cancel_left h

theorem keyStarts_memKey_memPfx (a i : Str) : keyStarts (memKey a i) (memPfx a) = true := by
  simp only [keyStarts, memKey, decide_eq_true_eq]
  exact List.prefix_append _ _

theorem keyStarts_longKey_longPfx (a i : Str) : keyStarts (longKey a i) (longPfx a) = true := by
  simp only [keyStarts, longKey, decide_eq_true_eq]
  exact List.prefix_append _ _

theorem keyStarts_longKey_memPfx (a b j : Str) : keyStarts (longKey b j) (memPfx a) = false := by
  simp only [keyStarts, decide_eq_false_iff_not, memPfx, longKey, longPfx,
    List.cons_append, List.append_assoc]
  intro h
  rw [List.cons_prefix_cons] at h
  simp at h

theorem keyStarts_semKey_memPfx (a b j : Str) : keyStarts (semKey b j) (memPfx a) = false := by
  simp only [keyStarts, decide_eq_false_iff_not, memPfx, semKey, semPfx,
    List.cons_append, List.append_assoc]
  intro h
  rw [List.cons_prefix_cons] at h
  simp at h

theorem keyStarts_memKey_longPfx (a b j : Str) : keyStarts (memKey b j) (longPfx a) = false := by
  simp only [keyStarts, decide_eq_false_iff_not, longPfx, memKey, memPfx,
    List.cons_append, List.append_assoc]
  intro h
  rw [List.cons_prefix_cons] at h
  simp at h

theorem keyStarts_semKey_longPfx (a b j : Str) : keyStarts (semKey b j) (longPfx a) = false := by
  simp only [keyStarts, decide_eq_false_iff_not, longPfx, semKey, semPfx,
    List.cons_append, List.append_assoc]
  intro h
  rw [List.cons_prefix_cons] at h
  simp at h

/-- The cache entries one degraded-mode `remember` call appends. -/
def entriesOf (cfg : Config) (c : RCall) : List (Str × CVal) :=
  [(memKey c.agent c.id, CVal.mem c.mk')]
  ++ (if cfg.longTerm then [(longKey c.agent c.id, CVal.mem c.mk')] else [])
  ++ (if cfg.semantic && c.inp.embedding.isSome then
        (match c.inp.embedding with
         | some e =>
           if e.length > 0 then
             [(semKey c.agent c.id, CVal.sem ⟨e, c.id, c.inp.type, c.inp.confidence⟩)]
           else []
         | none => [])
      else [])

theorem entriesOf_shape (cfg : Config) (c : RCall) (p : Str × CVal)
    (hp : p ∈ entriesOf cfg c) :
    p = (memKey c.agent c.id, CVal.mem c.mk') ∨
    p = (longKey c.agent c.id, CVal.mem c.mk') ∨
    (∃ e, p = (semKey c.agent c.id, CVal.sem ⟨e, c.id, c.inp.type, c.inp.confidence⟩)) := by
  unfold entriesOf at hp
  rcases List.mem_append.mp hp with h1 | h2
  · rcases List.mem_append.mp h1 with h3 | h4
    · left
      simpa using h3
    · right; left
      split at h4
      · simpa using h4
      · simp at h4
  · right; right
    split at h2
    · rcases hce : c.inp.embedding with _ | e
      · rw [hce] at h2
        simp at h2
      · rw [hce] at h2
        simp at h2
        exact ⟨e, h2.2⟩
    · simp at h2

theorem storeShortTerm_cache_degraded (cfg : Config) (hr : cfg.redisMode = false)
    (s : MState) (m : Memory)
    (hfresh : ∀ p ∈ s.cache, p.1 ≠ memKey m.agentId m.id) :
    storeShortTerm cfg s m =
      { s with cache := s.cache ++ [(memKey m.agentId m.id, CVal.mem m)] } := by
  unfold storeShortTerm
  rw [if_neg (by simp [hr])]
  rw [assocSet_fresh _ _ _ hfresh]

theorem storeLongTerm_cache_degraded (cfg : Config) (hs : cfg.supabase = false)
    (s : MState) (m : Memory)
    (hfresh : ∀ p ∈ s.cache, p.1 ≠ longKey m.agentId m.id) :
    storeLongTerm cfg s m =
      { s with cache := s.cache ++ [(longKey m.agentId m.id, CVal.mem m)] } := by
  unfold storeLongTerm
  rw [if_neg (by simp [hs])]
  rw [assocSet_fresh _ _ _ hfresh]

theorem storeSemanticMemory_cache (s : MState) (m : Memory) (e : List ℚ)
    (he : m.embedding = some e) (hel : e.length > 0)
    (hfresh : ∀ p ∈ s.cache, p.1 ≠ semKey m.agentId m.id) :
    storeSemanticMemory s m =
      { s with cache := s.cache ++
          [(semKey m.agentId m.id, CVal.sem ⟨e, m.id, m.type, m.confidence⟩)] } := by
  unfold storeSemanticMemory
  rw [he]
  dsimp only
  rw [if_pos hel]
  rw [assocSet_fresh _ _ _ hfresh]

theorem storeSemanticMemory_noop (s : MState) (m : Memory) (e : List ℚ)
    (he : m.embedding = some e) (hel : ¬ e.length > 0) :
    storeSemanticMemory s m = s := by
  unfold storeSemanticMemory
  rw [he]
  dsimp only
  rw [if_neg hel]

theorem remember_cache_degraded (cfg : Config) (hr : cfg.redisMode = false)
    (hs : cfg.supabase = false) (s : MState) (c : RCall)
    (hf : ∀ p ∈ s.cache, p.1 ≠ memKey c.agent c.id ∧ p.1 ≠ longKey c.agent c.id ∧
      p.1 ≠ semKey c.agent c.id) :
    ((remember cfg s c.agent c.inp c.id c.now).1).cache = s.cache ++ entriesOf cfg c ∧
    ((remember cfg s c.agent c.inp c.id c.now).1).redisKV = s.redisKV ∧
    ((remember cfg s c.agent c.inp c.id c.now).1).redisLists = s.redisLists ∧
    ((remember cfg s c.agent c.inp c.id c.now).1).db = s.db ∧
    ((remember cfg s c.agent c.inp c.id c.now).1).dbPatterns = s.dbPatterns := by
  unfold remember
  dsimp only
  rw [show (⟨c.id, c.agent, c.now, c.inp.type, c.inp.content, c.inp.confidence,
    c.inp.embedding, c.inp.metadata⟩ : Memory) = c.mk' from rfl]
  rw [storeShortTerm_cache_degraded cfg hr s _ (fun p hp => (hf p hp).1)]
  have hf1 : ∀ p ∈ s.cache ++ [(memKey c.agent c.id, CVal.mem c.mk')],
      p.1 ≠ longKey c.agent c.id ∧ p.1 ≠ semKey c.agent c.id := by
    intro p hp
    rcases List.mem_append.mp hp with h1 | h2
    · exact ⟨(hf p h1).2.1, (hf p h1).2.2⟩
    · have hpe : p = (memKey c.agent c.id, CVal.mem c.mk') := by simpa using h2
      rw [hpe]
      exact ⟨memKey_ne_longKey _ _ _ _, memKey_ne_semKey _ _ _ _⟩
  by_cases hlt : cfg.longTerm = true
  · rw [if_pos hlt]
    rw [storeLongTerm_cache_degraded cfg hs _ _ (fun p hp => (hf1 p hp).1)]
    have hf2 : ∀ p ∈ (s.cache ++ [(memKey c.agent c.id, CVal.mem c.mk')]) ++
        [(longKey c.agent c.id, CVal.mem c.mk')], p.1 ≠ semKey c.agent c.id := by
      intro p hp
      rcases List.mem_append.mp hp with h1 | h2
      · exact (hf1 p h1).2
      · have hpe : p = (longKey c.agent c.id, CVal.mem c.mk') := by simpa using h2
        rw [hpe]
        exact longKey_ne_semKey _ _ _ _
    by_cases hsem : (cfg.semantic && c.inp.embedding.isSome) = true
    · rw [if_pos hsem]
      have hsem2 : cfg.semantic = true ∧ c.inp.embedding.isSome = true := by
        simpa using hsem
      obtain ⟨e, hce⟩ := Option.isSome_iff_exists.mp hsem2.2
      by_cases hel : e.length > 0
      · rw [storeSemanticMemory_cache _ c.mk' e hce hel (fun p hp => hf2 p hp)]
        refine ⟨?_, rfl, rfl, rfl, rfl⟩
        simp [entriesOf, hlt, hsem, hsem2.1, hce, hel, RCall.mk']
      · rw [storeSemanticMemory_noop _ c.mk' e hce hel]
        refine ⟨?_, rfl, rfl, rfl, rfl⟩
        simp [entriesOf, hlt, hsem, hsem2.1, hce, hel, RCall.mk']
    · rw [if_neg hsem]
      refine ⟨?_, rfl, rfl, rfl, rfl⟩
      simp [entriesOf, hlt, hsem, RCall.mk']
  · rw [if_neg hlt]
    by_cases hsem : (cfg.semantic && c.inp.embedding.isSome) = true
    · rw [if_pos hsem]
      have hsem2 : cfg.semantic = true ∧ c.inp.embedding.isSome = true := by
        simpa using hsem
      obtain ⟨e, hce⟩ := Option.isSome_iff_exists.mp hsem2.2
      by_cases hel : e.length > 0
      · rw [storeSemanticMemory_cache _ c.mk' e hce hel (fun p hp => (hf1 p hp).2)]
        refine ⟨?_, rfl, rfl, rfl, rfl⟩
        simp [entriesOf, hlt, hsem, hsem2.1, hce, hel, RCall.mk']
      · rw [storeSemanticMemory_noop _ c.mk' e hce hel]
        refine ⟨?_, rfl, rfl, rfl, rfl⟩
        simp [entriesOf, hlt, hsem, hsem2.1, hce, hel, RCall.mk']
    · rw [if_neg hsem]
      refine ⟨?_, rfl, rfl, rfl, rfl⟩
      simp [entriesOf, hlt, hsem, RCall.mk']

theorem entriesOf_key_shape (cfg : Config) (c : RCall) (p : Str × CVal)
    (hp : p ∈ entriesOf cfg c) :
    p.1 = memKey c.agent c.id ∨ p.1 = longKey c.agent c.id ∨ p.1 = semKey c.agent c.id := by
  rcases entriesOf_shape cfg c p hp with h | h | ⟨e, h⟩ <;> rw [h]
  · left; rfl
  · right; left; rfl
  · right; right; rfl

theorem keys_ne_of_akey_ne {c c' : RCall} (hne : akey c ≠ akey c') (k : Str)
    (hk : k = memKey c.agent c.id ∨ k = longKey c.agent c.id ∨ k = semKey c.agent c.id) :
    k ≠ memKey c'.agent c'.id ∧ k ≠ longKey c'.agent c'.id ∧ k ≠ semKey c'.agent c'.id := by
  unfold akey at hne
  rcases hk with h | h | h <;> subst h <;> refine ⟨?_, ?_, ?_⟩
  · intro he; exact hne (memKey_inj he)
  · exact memKey_ne_longKey _ _ _ _
  · exact memKey_ne_semKey _ _ _ _
  · exact fun he => (memKey_ne_longKey _ _ _ _) he.symm
  · intro he; exact hne (longKey_inj he)
  · exact longKey_ne_semKey _ _ _ _
  · exact fun he => (memKey_ne_semKey _ _ _ _) he.symm
  · exact fun he => (longKey_ne_semKey _ _ _ _) he.symm
  · intro he; exact hne (semKey_inj he)

theorem runTrace_cache_degraded (cfg : Config) (hr : cfg.redisMode = false)
    (hs : cfg.supabase = false) :
    ∀ (T : List RCall) (s : MState),
      (∀ c ∈ T, ∀ p ∈ s.cache, p.1 ≠ memKey c.agent c.id ∧ p.1 ≠ longKey c.agent c.id ∧
        p.1 ≠ semKey c.agent c.id) →
      (T.map akey).Nodup →
      (runTrace cfg s T).cache = s.cache ++ T.flatMap (entriesOf cfg) := by
  intro T
  induction T with
  | nil =>
    intro s _ _
    simp [runTrace]
  | cons c rest ih =>
    intro s hfresh hnodup
    rw [runTrace]
    have hstep := remember_cache_degraded cfg hr hs s c (hfresh c (List.mem_cons_self _ _))
    have hnodup2 : (akey c :: rest.map akey).Nodup := by simpa using hnodup
    have hnodup' : (rest.map akey).Nodup := (List.nodup_cons.mp hnodup2).2
    have hanotin : akey c ∉ rest.map akey := (List.nodup_cons.mp hnodup2).1
    have hfresh' : ∀ c' ∈ rest, ∀ p ∈ ((remember cfg s c.agent c.inp c.id c.now).1).cache,
        p.1 ≠ memKey c'.agent c'.id ∧ p.1 ≠ longKey c'.agent c'.id ∧
        p.1 ≠ semKey c'.agent c'.id := by
      intro c' hc' p hp
      rw [hstep.1] at hp
      rcases List.mem_append.mp hp with h1 | h2
      · exact hfresh c' (List.mem_cons_of_mem _ hc') p h1
      · have hne : akey c ≠ akey c' := by
          intro he
          exact hanotin (by rw [he]; exact List.mem_map_of_mem _ hc')
        exact keys_ne_of_akey_ne hne p.1 (entriesOf_key_shape cfg c p h2)
    rw [ih _ hfresh' hnodup', hstep.1, List.flatMap_cons, List.append_assoc]

theorem queryShortTerm_degraded_subset (cfg : Config) (hr : cfg.redisMode = false)
    (S : MState) (a : Str) (q : Query) (v : CVal)
    (hv : v ∈ queryShortTerm cfg S a q) :
    ∃ p ∈ S.cache, p.2 = v ∧ keyStarts p.1 (memPfx a) = true := by
  unfold queryShortTerm at hv
  rw [if_neg (by simp [hr])] at hv
  rcases List.mem_map.mp hv with ⟨p, hp, hpe⟩
  have hmf := List.mem_filter.mp hp
  have hcc : keyStarts p.1 (memPfx a) = true ∧ matchesQuery p.2 q = true := by
    simpa using hmf.2
  exact ⟨p, hmf.1, hpe, hcc.1⟩

theorem queryLongTerm_degraded_subset (cfg : Config) (hs : cfg.supabase = false)
    (S : MState) (a : Str) (q : Query) (v : CVal)
    (hv : v ∈ queryLongTerm cfg S a q) :
    ∃ p ∈ S.cache, p.2 = v ∧ keyStarts p.1 (longPfx a) = true := by
  unfold queryLongTerm at hv
  rw [if_neg (by simp [hs])] at hv
  rcases List.mem_map.mp hv with ⟨p, hp, hpe⟩
  have hmf := List.mem_filter.mp hp
  have hcc : keyStarts p.1 (longPfx a) = true ∧ matchesQuery p.2 q = true := by
    simpa using hmf.2
  exact ⟨p, hmf.1, hpe, hcc.1⟩

theorem combined_shape (cfg : Config) (hr : cfg.redisMode = false)
    (hs : cfg.supabase = false) (T : List RCall) (a : Str)
    (lim : Option Nat) (sid : Option Str)
    (hkeys : (T.map akey).Nodup) (v : CVal)
    (hv : v ∈ recallCombined cfg (runTrace cfg emptyState T) a ⟨none, lim, none, sid⟩) :
    ∃ c ∈ T, v = CVal.mem c.mk' := by
  have hcache : (runTrace cfg emptyState T).cache = T.flatMap (entriesOf cfg) := by
    have := runTrace_cache_degraded cfg hr hs T emptyState
      (by intro c _ p hp; simp [emptyState] at hp) hkeys
    simpa [emptyState] using this
  unfold recallCombined at hv
  dsimp only at hv
  rcases List.mem_append.mp hv with h12 | h3
  · rcases List.mem_append.mp h12 with h1 | h2
    · obtain ⟨p, hpc, hpv, hpk⟩ := queryShortTerm_degraded_subset cfg hr _ a _ v h1
      rw [hcache] at hpc
      obtain ⟨c, hc, hpe⟩ := List.mem_flatMap.mp hpc
      rcases entriesOf_shape cfg c p hpe with h | h | ⟨e, h⟩
      · exact ⟨c, hc, by rw [← hpv, h]⟩
      · exact ⟨c, hc, by rw [← hpv, h]⟩
      · rw [h] at hpk
        rw [keyStarts_semKey_memPfx] at hpk
        cases hpk
    · have h2' : v ∈ queryLongTerm cfg (runTrace cfg emptyState T) a ⟨none, lim, none, sid⟩ := by
        by_cases hb : (decide ((queryShortTerm cfg (runTrace cfg emptyState T) a
            ⟨none, lim, none, sid⟩).length < jsOr lim 10) && cfg.longTerm) = true
        · rw [if_pos hb] at h2
          exact h2
        · rw [if_neg hb] at h2
          cases h2
      obtain ⟨p, hpc, hpv, hpk⟩ := queryLongTerm_degraded_subset cfg hs _ a _ v h2'
      rw [hcache] at hpc
      obtain ⟨c, hc, hpe⟩ := List.mem_flatMap.mp hpc
      rcases entriesOf_shape cfg c p hpe with h | h | ⟨e, h⟩
      · exact ⟨c, hc, by rw [← hpv, h]⟩
      · exact ⟨c, hc, by rw [← hpv, h]⟩
      · rw [h] at hpk
        rw [keyStarts_semKey_longPfx] at hpk
        cases hpk
  · simp at h3

theorem mem_combined (cfg : Config) (hr : cfg.redisMode = false)
    (hs : cfg.supabase = false) (T : List RCall) (a : Str)
    (lim : Option Nat) (sid : Option Str)
    (hkeys : (T.map akey).Nodup) (c : RCall) (hc : c ∈ T) (hca : c.agent = a) :
    CVal.mem c.mk' ∈ recallCombined cfg (runTrace cfg emptyState T) a ⟨none, lim, none, sid⟩ := by
  have hcache : (runTrace cfg emptyState T).cache = T.flatMap (entriesOf cfg) := by
    have := runTrace_cache_degraded cfg hr hs T emptyState
      (by intro c _ p hp; simp [emptyState] at hp) hkeys
    simpa [emptyState] using this
  have hst : CVal.mem c.mk' ∈ queryShortTerm cfg (runTrace cfg emptyState T) a
      ⟨none, lim, none, sid⟩ := by
    unfold queryShortTerm
    rw [if_neg (by simp [hr])]
    have hmemc : (memKey c.agent c.id, CVal.mem c.mk') ∈ (runTrace cfg emptyState T).cache := by
      rw [hcache]
      exact List.mem_flatMap.mpr ⟨c, hc, by simp [entriesOf]⟩
    have hpred : keyStarts (memKey c.agent c.id) (memPfx a) = true ∧
        matchesQuery (CVal.mem c.mk') ⟨none, lim, none, sid⟩ = true := by
      constructor
      · rw [hca]
        exact keyStarts_memKey_memPfx a c.id
      · rfl
    have : (memKey c.agent c.id, CVal.mem c.mk') ∈
        (runTrace cfg emptyState T).cache.filter
          (fun p => keyStarts p.1 (memPfx a) && matchesQuery p.2 ⟨none, lim, none, sid⟩) := by
      refine List.mem_filter.mpr ⟨hmemc, ?_⟩
      simp [hpred.1, hpred.2]
    exact List.mem_map.mpr ⟨_, this, rfl⟩
  unfold recallCombined
  dsimp only
  exact List.mem_append.mpr (Or.inl (List.mem_append.mpr (Or.inl hst)))

theorem mem_of_mem_dedupKeep :
    ∀ (l : List CVal) (seen : List (Option Str)) (v : CVal),
      v ∈ dedupKeep seen l → v ∈ l := by
  intro l
  induction l with
  | nil =>
    intro seen v hv
    simp [dedupKeep] at hv
  | cons w rest ih =>
    intro seen v hv
    rw [dedupKeep] at hv
    split at hv
    · exact List.mem_cons_of_mem _ (ih seen v hv)
    · rcases List.mem_cons.mp hv with h1 | h2
      · rw [h1]; exact List.mem_cons_self _ _
      · exact List.mem_cons_of_mem _ (ih _ v h2)

theorem sortMemories_ok_of_mem (l : List CVal)
    (hall : ∀ v ∈ l, ∃ m, v = CVal.mem m) :
    ∃ l', sortMemories l = .ok l' ∧ l'.Perm l := by
  unfold sortMemories
  by_cases h1 : l.length ≤ 1
  · rw [if_pos h1]
    exact ⟨l, rfl, List.Perm.refl l⟩
  · rw [if_neg h1, if_pos ?hall]
    case hall =>
      rw [List.all_eq_true]
      intro v hv
      rcases hall v hv with ⟨m, hm⟩
      rw [hm]
      rfl
    exact ⟨_, rfl, List.perm_insertionSort byTsDesc l⟩

/-- Claim C1 (amended): in degraded in-process mode (no Redis, no Supabase —
the configuration of the repository's own tests), for any sequence of
`remember` calls whose generated ids are distinct (and whose agent/id key
strings do not alias), a `recall` with no filter and *any* limit returns
every memory previously stored for that agent exactly once, with
`confidence`/`type`/`content` (all fields) unchanged.  In Redis mode the
original claim fails: see the counterexample. -/
theorem recall_roundtrip_degraded (cfg : Config) (T : List RCall) (a : Str)
    (lim : Option Nat) (sid : Option Str)
    (hr : cfg.redisMode = false) (hs : cfg.supabase = false)
    (hids : (T.map RCall.id).Nodup)
    (hkeys : (T.map akey).Nodup) :
    ∃ l, «recall» cfg (runTrace cfg emptyState T) a ⟨none, lim, none, sid⟩ = .ok l ∧
      ∀ c ∈ T, c.agent = a → l.count (CVal.mem c.mk') = 1 := by
  have hshape := combined_shape cfg hr hs T a lim sid hkeys
  have hdshape : ∀ v ∈ deduplicateMemories
      (recallCombined cfg (runTrace cfg emptyState T) a ⟨none, lim, none, sid⟩),
      ∃ m, v = CVal.mem m := by
    intro v hv
    rcases hshape v (mem_of_mem_dedupKeep _ _ v hv) with ⟨c, _, he⟩
    exact ⟨c.mk', he⟩
  obtain ⟨l, hok, hperm⟩ := sortMemories_ok_of_mem _ hdshape
  refine ⟨l, hok, ?_⟩
  intro c hc hca
  have hginc : ∀ x ∈ (recallCombined cfg (runTrace cfg emptyState T) a
      ⟨none, lim, none, sid⟩).filter (fun v => v.idField == some c.id),
      x = CVal.mem c.mk' := by
    intro x hx
    have hx' := List.mem_filter.mp hx
    rcases hshape x hx'.1 with ⟨c', hc', he⟩
    have hid : c'.id = c.id := by
      have hxi : (x.idField == some c.id) = true := hx'.2
      rw [he] at hxi
      simpa [CVal.idField, RCall.mk'] using hxi
    have hcc : c' = c := List.inj_on_of_nodup_map hids hc' hc hid
    rw [he, hcc]
  have hne : CVal.mem c.mk' ∈ (recallCombined cfg (runTrace cfg emptyState T) a
      ⟨none, lim, none, sid⟩).filter (fun v => v.idField == some c.id) := by
    refine List.mem_filter.mpr ⟨mem_combined cfg hr hs T a lim sid hkeys c hc hca, ?_⟩
    simp [CVal.idField, RCall.mk']
  have htake : ((recallCombined cfg (runTrace cfg emptyState T) a
      ⟨none, lim, none, sid⟩).filter (fun v => v.idField == some c.id)).take 1 =
      [CVal.mem c.mk'] := by
    cases hfl : (recallCombined cfg (runTrace cfg emptyState T) a
        ⟨none, lim, none, sid⟩).filter (fun v => v.idField == some c.id) with
    | nil =>
      rw [hfl] at hne
      cases hne
    | cons y t =>
      have hy : y = CVal.mem c.mk' := hginc y (by rw [hfl]; exact List.mem_cons_self _ _)
      simp [hy]
  have hdf : (deduplicateMemories (recallCombined cfg (runTrace cfg emptyState T) a
      ⟨none, lim, none, sid⟩)).filter (fun v => v.idField == some c.id) =
      [CVal.mem c.mk'] := by
    rw [dedup_filter, htake]
  have hcnt : (deduplicateMemories (recallCombined cfg (runTrace cfg emptyState T) a
      ⟨none, lim, none, sid⟩)).count (CVal.mem c.mk') = 1 := by
    rw [List.count_eq_countP, List.countP_eq_length_filter]
    have heq : (deduplicateMemories (recallCombined cfg (runTrace cfg emptyState T) a
        ⟨none, lim, none, sid⟩)).filter (fun x => x == CVal.mem c.mk') =
        (deduplicateMemories (recallCombined cfg (runTrace cfg emptyState T) a
          ⟨none, lim, none, sid⟩)).filter
          (fun x => (x == CVal.mem c.mk') && (x.idField == some c.id)) := by
      apply List.filter_congr
      intro x _
      by_cases hxe : x = CVal.mem c.mk'
      · subst hxe
        simp [CVal.idField, RCall.mk']
      · have : (x == CVal.mem c.mk') = false := by simpa using hxe
        simp [this]
    rw [heq, ← List.filter_filter, hdf]
    simp
  rw [hperm.count_eq]
  exact hcnt

/-- Witness for the amended C1: three stores for one agent in degraded mode,
hypotheses discharged at the concrete trace. -/
theorem recall_roundtrip_degraded_witness :
    (cfgD.redisMode = false) ∧ (cfgD.supabase = false) ∧
    ((trace3.map RCall.id).Nodup) ∧ ((trace3.map akey).Nodup) ∧
    (∃ l, «recall» cfgD (runTrace cfgD emptyState trace3) aA ⟨none, none, none, none⟩ =
        .ok l ∧
      ∀ c ∈ trace3, c.agent = aA → l.count (CVal.mem c.mk') = 1) :=
  ⟨rfl, rfl, by decide, by decide,
    recall_roundtrip_degraded cfgD trace3 aA none none rfl rfl (by decide) (by decide)⟩
